import Mathlib

/-!
# Verification of the gotohp upload client against its specification

This file gives a shallow embedding of the upload-deduplication client:
the exception hierarchy is embedded from `gpmc/exceptions.py`; the
remaining components (uploader, identity cache, protocol codec, file
selector, upload scheduler) are present in the repository only through
their tests and callers, so they are modelled from the specification's
component contracts (spec sections 4.1 - 4.6), as marked on each
definition.
-/

set_option autoImplicit false

namespace Gotohp

/-! ## Exception hierarchy, embedded from `gpmc/exceptions.py` -/

/-- The exception types declared in `gpmc/exceptions.py`, together with the
built-in `Exception` root they extend. -/
inductive ExcType where
  | Exception
  | CustomException
  | UploadRejected
  | ProtobufDecodeError
  | ProtobufEncodeError
  deriving DecidableEq, Repr

/-- The declared base of each exception type, read off the `class` headers of
`gpmc/exceptions.py`: `CustomException(Exception)`,
`UploadRejected(CustomException)`, `ProtobufDecodeError(CustomException)`,
`ProtobufEncodeError(CustomException)`. -/
def baseOf : ExcType → Option ExcType
  | .Exception => none
  | .CustomException => some .Exception
  | .UploadRejected => some .CustomException
  | .ProtobufDecodeError => some .CustomException
  | .ProtobufEncodeError => some .CustomException

/-- Reflexive-transitive closure of `baseOf`, bounded by a fuel argument:
`derivesAux fuel c d` holds when `c` is `d` or transitively extends `d`. -/
def derivesAux : Nat → ExcType → ExcType → Bool
  | 0, _, _ => false
  | fuel + 1, c, d =>
    c = d ||
      match baseOf c with
      | some p => derivesAux fuel p d
      | none => false

/-- `derives c d`: exception type `c` is `d` or a (transitive) subtype of `d`.
The hierarchy has depth at most three, so fuel 5 is exact. -/
def derives (c d : ExcType) : Bool :=
  derivesAux 5 c d

/-- A Python `except d:` handler catches a raised exception of type `c`
exactly when `c` derives from `d`. -/
def caughtBy (raised handler : ExcType) : Bool :=
  derives raised handler

/-! ## Data model (spec section 3), modelled from the spec -/

/-- Modelled from the spec: a ContentIdentifier is a fixed-length binary
digest of a file's full byte content (SHA-1 in the real client, whose code
`gpmc/client.py` is missing from `src/`); modelled as a list of bytes. -/
abbrev ContentIdentifier := List Nat

/-- Modelled from the spec: a RemoteObjectReference is an opaque string token
(media key) issued by the remote service. -/
abbrev Ref := String

/-- Modelled from the spec: a local file with its filesystem metadata and its
byte content. Only the content participates in content identification. -/
structure LocalFile where
  name : String
  path : String
  mtime : Nat
  perms : Nat
  content : List Nat
  deriving DecidableEq, Repr

/-- Modelled from the spec: the whole-file digest underlying `identify`
(spec section 4.1). The real client hashes with SHA-1; the model uses a
deterministic executable fold over the byte content, which preserves the
property under verification: the digest is a function of the bytes alone. -/
def digest (content : List Nat) : ContentIdentifier :=
  [content.foldl (fun a b => (a * 131 + b + 1) % 4294967296) 5381]

/-- Modelled from the spec: `identify(path) -> ContentIdentifier`
(spec section 4.1) reads the full file content and digests it; filesystem
metadata (name, path, mtime, permissions) does not enter the digest. -/
def identify (f : LocalFile) : ContentIdentifier :=
  digest f.content

/-! ## Identity Cache (spec section 4.2), modelled from the spec -/

/-- Modelled from the spec: the Identity Cache is a persisted set of
CacheEntry pairs keyed by ContentIdentifier, modelled as an association
list. -/
abbrev Cache := List (ContentIdentifier × Ref)

/-- Modelled from the spec: `lookup(id) -> Option<RemoteObjectReference>`,
side-effect free; returns the first entry for the identifier. -/
def cacheLookup : Cache → ContentIdentifier → Option Ref
  | [], _ => none
  | e :: es, id => if e.1 = id then some e.2 else cacheLookup es id

/-- Modelled from the spec: `insert(id, ref)` is idempotent; inserting an
existing id with the same ref is a no-op; inserting with a different ref
overwrites (a reconciliation event); inserting a fresh id adds an entry. -/
def cacheInsert (c : Cache) (id : ContentIdentifier) (ref : Ref) : Cache :=
  match cacheLookup c id with
  | some r => if r = ref then c else c.map (fun e => if e.1 = id then (id, ref) else e)
  | none => (id, ref) :: c

/-- Modelled from the spec: `refresh(remote_source)` merges an authoritative
remote enumeration into the cache, entry by entry through `insert`. -/
def cacheRefresh (c : Cache) (entries : List (ContentIdentifier × Ref)) : Cache :=
  entries.foldl (fun acc e => cacheInsert acc e.1 e.2) c

/-- Modelled from the spec: the operations a worker may execute against the
Identity Cache (spec section 4.2). -/
inductive CacheOp where
  | lookup (id : ContentIdentifier)
  | insert (id : ContentIdentifier) (ref : Ref)
  | refresh (entries : List (ContentIdentifier × Ref))
  deriving Repr

/-- Apply one cache operation to the cache state; `lookup` has no side
effect. -/
def applyOp (c : Cache) : CacheOp → Cache
  | .lookup _ => c
  | .insert id ref => cacheInsert c id ref
  | .refresh entries => cacheRefresh c entries

/-- Apply a sequence of cache operations in order. -/
def applyOps (c : Cache) (ops : List CacheOp) : Cache :=
  ops.foldl applyOp c

/-- The cache maps each ContentIdentifier to at most one
RemoteObjectReference. -/
def AtMostOneRef (c : Cache) : Prop :=
  ∀ id r1 r2, (id, r1) ∈ c → (id, r2) ∈ c → r1 = r2

/-! ## Remote service and uploader (spec sections 4.4, 5, 6) -/

/-- Modelled from the spec: the remote service boundary (spec section 6).
`objects` is the server-side content-addressed store consulted by the
existence check and by server-side dedup; `fresh` deterministically assigns
the media key a new upload of given content receives; `reject` gives the
server-provided reason when the service declines an upload of that content
(quota or policy). -/
structure RemoteService where
  objects : ContentIdentifier → Option Ref
  fresh : ContentIdentifier → Ref
  reject : ContentIdentifier → Option String

/-- Modelled from the spec: upload options recognized by the upload
operation (spec section 6): force-reupload toggle and post-upload flags. -/
structure UploadOptions where
  force : Bool
  saver : Bool
  useQuota : Bool
  deriving DecidableEq, Repr

/-- Modelled from the spec: an UploadTask is one candidate file with an
optional caller-supplied precomputed ContentIdentifier (spec section 3).
Upload options are given per `upload` call (spec section 6 caller surface)
and so apply uniformly to the whole batch. -/
structure UploadTask where
  file : LocalFile
  providedHash : Option ContentIdentifier
  deriving DecidableEq, Repr

/-- Modelled from the spec: the identifier used for a task, the
caller-supplied digest when present (spec section 4.1 accept-entry point),
otherwise computed by `identify`. -/
def taskId (t : UploadTask) : ContentIdentifier :=
  t.providedHash.getD (identify t.file)

/-- Modelled from the spec: the outcome of one UploadTask — success with the
RemoteObjectReference and a dedup-hit flag, or a recorded failure with the
server reason (spec section 3, UploadResult). -/
inductive UploadResult where
  | success (ref : Ref) (dedupHit : Bool)
  | failure (reason : String)
  deriving DecidableEq, Repr

/-- The reference view of an UploadResult: the file-to-reference mapping the
caller reads off the aggregate result (errors keep their reason). -/
def resultRef : UploadResult → Except String Ref
  | .success r _ => .ok r
  | .failure e => .error e

/-- The mutable state shared by workers: the Identity Cache plus the remote
service's store. -/
structure EngineState where
  cache : Cache
  server : RemoteService

/-- Modelled from the spec: the Transfer step (spec section 4.4 step 4).
The remote service's own dedup response is authoritative: content already
stored server-side comes back with its existing reference; otherwise the
service either rejects the upload with a reason or stores the content under
a fresh server-assigned reference. -/
def transferStep (st : EngineState) (id : ContentIdentifier) :
    Except String Ref × EngineState :=
  match st.server.objects id with
  | some r => (.ok r, st)
  | none =>
    match st.server.reject id with
    | some reason => (.error reason, st)
    | none =>
      let r := st.server.fresh id
      (.ok r,
        { st with
          server :=
            { st.server with
              objects := fun k => if k = id then some r else st.server.objects k } })

/-- Modelled from the spec: the per-file Uploader state machine
(spec section 4.4): Identify, then (unless force-upload) Check the Identity
Cache, then Negotiate a remote existence check with cache backfill, then
Transfer, then Finalize by inserting the result into the cache. The second
component of the result counts network transfer calls performed. -/
def uploadOne (st : EngineState) (opts : UploadOptions) (t : UploadTask) :
    (UploadResult × Nat) × EngineState :=
  let id := taskId t
  if opts.force then
    match transferStep st id with
    | (.ok r, st1) => ((.success r false, 1), { st1 with cache := cacheInsert st1.cache id r })
    | (.error e, st1) => ((.failure e, 1), st1)
  else
    match cacheLookup st.cache id with
    | some r => ((.success r true, 0), st)
    | none =>
      match st.server.objects id with
      | some r => ((.success r true, 0), { st with cache := cacheInsert st.cache id r })
      | none =>
        match transferStep st id with
        | (.ok r, st1) => ((.success r false, 1), { st1 with cache := cacheInsert st1.cache id r })
        | (.error e, st1) => ((.failure e, 1), st1)

/-- Modelled from the spec: the Upload Scheduler's execution of a batch in a
given completion order (spec section 4.6): each worker runs the Uploader
state machine to completion for its task, one task at a time, with all
Identity Cache access serialized (spec section 5); the aggregate result maps
each originating file path to its UploadResult. The pool size determines
only which completion order arises. -/
def runSchedule (st : EngineState) (opts : UploadOptions) :
    List UploadTask → List (String × UploadResult) × EngineState
  | [] => ([], st)
  | t :: ts =>
    let step := uploadOne st opts t
    let rest := runSchedule step.2 opts ts
    ((t.file.path, step.1.1) :: rest.1, rest.2)

/-- The aggregate file-to-reference mapping read off a scheduler run. -/
def refMap (results : List (String × UploadResult)) : List (String × Except String Ref) :=
  results.map (fun p => (p.1, resultRef p.2))

/-! ## Order-independence of per-task outcomes

The remote service answers deterministically for a given content identifier,
so the reference each task ends up with is a function of the initial shared
state alone; `Tracks` is the invariant tying any intermediate state back to
the initial one. -/

/-- The outcome the deterministic remote service gives an upload of content
`id`, as a function of the initial state: the existing object if one is
stored, else the rejection reason if the service declines, else the fresh
server-assigned reference. -/
def gOutcome (st0 : EngineState) (id : ContentIdentifier) : Except String Ref :=
  match st0.server.objects id with
  | some r => .ok r
  | none =>
    match st0.server.reject id with
    | some reason => .error reason
    | none => .ok (st0.server.fresh id)

/-- The reference a task resolves to, as a function of the initial shared
state: the cached reference on an (unforced) cache hit, otherwise the remote
service's deterministic answer. -/
def canonicalRef (st0 : EngineState) (opts : UploadOptions) (t : UploadTask) :
    Except String Ref :=
  if opts.force then gOutcome st0 (taskId t)
  else
    match cacheLookup st0.cache (taskId t) with
    | some r => .ok r
    | none => gOutcome st0 (taskId t)

/-- Invariant relating a state reached during a batch run back to the
initial state `st0`: the server's deterministic answer functions are
unchanged, every newly stored server object is the fresh reference for
content the initial server lacked and did not reject, and (in unforced
batches, the only ones that read the cache) every new cache entry records
the remote service's deterministic answer for a previously uncached
identifier. -/
def Tracks (opts : UploadOptions) (st0 st : EngineState) : Prop :=
  st.server.fresh = st0.server.fresh ∧
  st.server.reject = st0.server.reject ∧
  (∀ id, st.server.objects id = st0.server.objects id ∨
    (st0.server.objects id = none ∧ st0.server.reject id = none ∧
      st.server.objects id = some (st0.server.fresh id))) ∧
  (opts.force = false →
    ∀ id, cacheLookup st.cache id = cacheLookup st0.cache id ∨
      (cacheLookup st0.cache id = none ∧
        ∃ r, gOutcome st0 id = .ok r ∧ cacheLookup st.cache id = some r))

/-! ## Protocol Codec (spec section 4.3), modelled from the spec -/

/-- Modelled from the spec: a decoded upload-protocol response; the media
key payload is its single required field, populated only when decoding
succeeds in full. -/
structure MediaResponse where
  mediaKey : List Nat
  deriving DecidableEq, Repr

/-- Modelled from the spec: the decode-error kind (`ProtobufDecodeError` in
`gpmc/exceptions.py`); it carries the raw response bytes for diagnosis. -/
structure DecodeFailure where
  raw : List Nat
  deriving DecidableEq, Repr

/-- The protocol version tag a well-formed response starts with. -/
def protocolVersion : Nat := 1

/-- Modelled from the spec: the wire image of a well-formed response
(protobuf framing reduced to its essence): a version tag, a one-byte length
field, then the payload bytes; `none` when a field is oversized or not a
byte (the encode-error kind, spec section 4.3). The codec code
(`gpmc/message.py` and friends) is missing from `src/`. -/
def encodeResp (r : MediaResponse) : Option (List Nat) :=
  if r.mediaKey.length ≤ 255 ∧ ∀ b ∈ r.mediaKey, b < 256 then
    some (protocolVersion :: r.mediaKey.length :: r.mediaKey)
  else none

/-- Modelled from the spec: `decode(bytes) -> response` (spec section 4.3):
a response is returned only when the version tag matches and the payload is
complete and byte-valued; otherwise decoding fails with `DecodeFailure`
carrying the raw bytes, never a partially populated response. -/
def decodeResp (bs : List Nat) : Except DecodeFailure MediaResponse :=
  match bs with
  | v :: len :: rest =>
    if v = protocolVersion ∧ rest.length = len ∧ len ≤ 255 ∧ ∀ b ∈ rest, b < 256 then
      .ok ⟨rest⟩
    else .error ⟨bs⟩
  | _ => .error ⟨bs⟩

/-! ## File Selector (spec section 4.5), modelled from the spec -/

/-- Modelled from the spec: the filter configuration of an upload call:
the filter expression, case sensitivity, and pattern syntax (regular
expression when `regex`, glob otherwise). -/
structure FilterConfig where
  expr : String
  ignoreCase : Bool
  regex : Bool
  deriving DecidableEq, Repr

/-- Lower-case every character of a string (ASCII case folding). -/
def lowerStr (s : String) : String :=
  ⟨s.data.map Char.toLower⟩

/-- Whether `p` occurs at the start of `s`. -/
def segStart : List Char → List Char → Bool
  | [], _ => true
  | _ :: _, [] => false
  | a :: ps, b :: ss => a = b && segStart ps ss

/-- Whether `p` occurs contiguously anywhere inside `s`. -/
def segInside (p : List Char) : List Char → Bool
  | [] => p.isEmpty
  | b :: ss => segStart p (b :: ss) || segInside p ss

/-- Modelled from the spec: glob-style pattern matching against a whole
filename, with `*` and `?` wildcards. -/
def globMatch : List Char → List Char → Bool
  | [], [] => true
  | [], _ :: _ => false
  | '*' :: ps, [] => globMatch ps []
  | '*' :: ps, c :: cs => globMatch ps (c :: cs) || globMatch ('*' :: ps) cs
  | '?' :: ps, _ :: cs => globMatch ps cs
  | p :: ps, c :: cs => (p = c) && globMatch ps cs
  | _ :: _, [] => false
termination_by p s => p.length + s.length

/-- Modelled from the spec: whether the filter expression matches a
filename (spec section 4.5). With case-insensitive matching both sides are
case folded first. In regular-expression mode a literal expression such as
"copy" matches by `re.search` semantics, i.e. when it occurs anywhere in
the name; in glob mode the pattern must match the whole name. -/
def filterHit (cfg : FilterConfig) (name : String) : Bool :=
  let n := if cfg.ignoreCase then lowerStr name else name
  let p := if cfg.ignoreCase then lowerStr cfg.expr else cfg.expr
  if cfg.regex then segInside p.data n.data else globMatch p.data n.data

/-- Modelled from the spec: the File Selector's exclusion filtering over the
candidate filenames of a traversal (spec section 4.5): a file is excluded
exactly when the filter expression matches its name. -/
def selectCandidates (cfg : Option FilterConfig) (names : List String) : List String :=
  names.filter (fun n =>
    !(match cfg with
      | some c => filterHit c n
      | none => false))

/-! ## Content digests in hexadecimal and base64 (spec section 6,
`get_media_key_by_hash`), modelled from the spec -/

/-- The lowercase hexadecimal digit for `n < 16`. -/
def hexDigitChr (n : Nat) : Char :=
  if n < 10 then Char.ofNat (48 + n) else Char.ofNat (87 + n)

/-- The value of a hexadecimal digit, accepting both cases. -/
def hexChrVal (c : Char) : Option Nat :=
  if 48 ≤ c.toNat ∧ c.toNat ≤ 57 then some (c.toNat - 48)
  else if 97 ≤ c.toNat ∧ c.toNat ≤ 102 then some (c.toNat - 87)
  else if 65 ≤ c.toNat ∧ c.toNat ≤ 70 then some (c.toNat - 55)
  else none

/-- Hexadecimal encoding of a byte sequence, two digits per byte. -/
def hexEncode : List Nat → List Char
  | [] => []
  | b :: bs => hexDigitChr (b / 16) :: hexDigitChr (b % 16) :: hexEncode bs

/-- Hexadecimal decoding of an even-length digit sequence. -/
def hexDecode : List Char → Option (List Nat)
  | [] => some []
  | c1 :: c2 :: cs =>
    match hexChrVal c1, hexChrVal c2, hexDecode cs with
    | some h, some l, some rest => some ((h * 16 + l) :: rest)
    | _, _, _ => none
  | _ => none

/-- Whether a character is a hexadecimal digit. -/
def isHexDigitChr (c : Char) : Bool :=
  (hexChrVal c).isSome

/-- The standard base64 alphabet character for `n < 64`. -/
def b64chr (n : Nat) : Char :=
  if n < 26 then Char.ofNat (65 + n)
  else if n < 52 then Char.ofNat (97 + n - 26)
  else if n < 62 then Char.ofNat (48 + n - 52)
  else if n = 62 then '+' else '/'

/-- The value of a standard base64 alphabet character. -/
def b64val (c : Char) : Option Nat :=
  if 65 ≤ c.toNat ∧ c.toNat ≤ 90 then some (c.toNat - 65)
  else if 97 ≤ c.toNat ∧ c.toNat ≤ 122 then some (c.toNat - 71)
  else if 48 ≤ c.toNat ∧ c.toNat ≤ 57 then some (c.toNat + 4)
  else if c = '+' then some 62
  else if c = '/' then some 63
  else none

/-- Standard base64 encoding of a byte sequence, with `=` padding. -/
def b64Encode : List Nat → List Char
  | b0 :: b1 :: b2 :: rest =>
    b64chr (b0 / 4) :: b64chr ((b0 % 4) * 16 + b1 / 16) ::
      b64chr ((b1 % 16) * 4 + b2 / 64) :: b64chr (b2 % 64) :: b64Encode rest
  | [b0, b1] => [b64chr (b0 / 4), b64chr ((b0 % 4) * 16 + b1 / 16), b64chr ((b1 % 16) * 4), '=']
  | [b0] => [b64chr (b0 / 4), b64chr ((b0 % 4) * 16), '=', '=']
  | [] => []

/-- Standard base64 decoding, quartet by quartet, honouring `=` padding. -/
def b64Decode : List Char → Option (List Nat)
  | [] => some []
  | a :: b :: c :: d :: rest =>
    match b64val a, b64val b with
    | some s0, some s1 =>
      if c = '=' then
        if d = '=' ∧ rest = [] then some [s0 * 4 + s1 / 16] else none
      else
        match b64val c with
        | some s2 =>
          if d = '=' then
            if rest = [] then some [s0 * 4 + s1 / 16, (s1 % 16) * 16 + s2 / 4] else none
          else
            match b64val d with
            | some s3 =>
              (b64Decode rest).map
                (fun t => (s0 * 4 + s1 / 16) :: ((s1 % 16) * 16 + s2 / 4) :: ((s2 % 4) * 64 + s3) :: t)
            | none => none
        | none => none
    | _, _ => none
  | _ => none

/-- Modelled from the spec: how the hash argument of
`get_media_key_by_hash` is normalized — a 40-character string of
hexadecimal digits is read as a hexadecimal SHA-1 digest, anything else as
a base64 digest (the two encodings exercised by
`TestUpload.test_hash_check_b64` and `TestUpload.test_hash_check_hxd`). -/
def parseDigest (s : String) : Option (List Nat) :=
  if s.data.length = 40 ∧ s.data.all isHexDigitChr then hexDecode s.data
  else b64Decode s.data

/-- Modelled from the spec: `Client.get_media_key_by_hash` (the client code
is missing from `src/`): normalize the digest string and look the digest up
in the identifier-to-reference store, returning the media key on a hit and
nothing on a miss. -/
def get_media_key_by_hash (c : Cache) (s : String) : Option Ref :=
  (parseDigest s).bind (fun d => cacheLookup c d)

/-! ## Concrete fixtures used by the witness theorems -/

/-- A concrete local file. -/
def wFile : LocalFile :=
  ⟨"image.png", "media/image.png", 1700000000, 420, [1, 2, 3]⟩

/-- The same byte content as `wFile` under a different name, path and
metadata. -/
def wFileCopy : LocalFile :=
  ⟨"Copy_of_image.png", "elsewhere/Copy_of_image.png", 1800000000, 600, [1, 2, 3]⟩

/-- A concrete second file with different content. -/
def wFileB : LocalFile :=
  ⟨"clip.mkv", "media/clip.mkv", 1700000001, 420, [9, 9]⟩

/-- Upload task for `wFile`. -/
def wTask : UploadTask := ⟨wFile, none⟩

/-- Upload task for `wFileB`. -/
def wTaskB : UploadTask := ⟨wFileB, none⟩

/-- Unforced upload options. -/
def wOpts : UploadOptions := ⟨false, false, false⟩

/-- Forced upload options. -/
def wOptsForce : UploadOptions := ⟨true, true, true⟩

/-- A remote service storing nothing, assigning a constant fresh key,
rejecting nothing. -/
def wServer : RemoteService :=
  ⟨fun _ => none, fun _ => "FRESH-KEY", fun _ => none⟩

/-- A remote service that already stores every content under "REMOTE-KEY". -/
def wServerFull : RemoteService :=
  ⟨fun _ => some "REMOTE-KEY", fun _ => "FRESH-KEY", fun _ => none⟩

/-- Engine state whose cache already holds `wFile`'s identifier. -/
def wStateHit : EngineState :=
  ⟨[(identify wFile, "CACHED-KEY")], wServer⟩

/-- Engine state with an empty cache and an empty remote store. -/
def wStateEmpty : EngineState :=
  ⟨[], wServer⟩

/-- Engine state with an empty cache whose remote store already holds every
content. -/
def wStateRemote : EngineState :=
  ⟨[], wServerFull⟩

/-- A concrete cache-operation sequence: a double insert on one identifier,
a lookup, and a refresh. -/
def wOps : List CacheOp :=
  [.insert [7] "a", .insert [7] "b", .lookup [7], .refresh [([8], "c"), ([7], "b")]]

/-- The SHA-1 digest of the test image
(`6e3be650b2d8be4563f23595405bb53e5f7c8580`), as bytes. -/
def wDigest : List Nat :=
  [110, 59, 230, 80, 178, 216, 190, 69, 99, 242, 53, 149, 64, 91, 181, 62, 95, 124, 133, 128]

theorem tracks_refl (opts : UploadOptions) (st : EngineState) : Tracks opts st st :=
  ⟨rfl, rfl, fun _ => Or.inl rfl, fun _ _ => Or.inl rfl⟩

/-- Looking up through the overwrite map of `cacheInsert` rewrites exactly
the entries keyed by the overwritten identifier. -/
theorem cacheLookup_overwrite (c : Cache) (id : ContentIdentifier) (ref : Ref)
    (k : ContentIdentifier) :
    cacheLookup (c.map (fun e => if e.1 = id then (id, ref) else e)) k =
      if k = id then (cacheLookup c id).map (fun _ => ref) else cacheLookup c k := by
  induction c with
  | nil => by_cases h : k = id <;> simp [cacheLookup, h]
  | cons e es ih =>
    by_cases he : e.1 = id
    · by_cases hk : k = id
      · subst hk
        simp [cacheLookup, he]
      · simp only [List.map_cons, if_pos he, cacheLookup, if_neg (Ne.symm hk), ih,
          if_neg hk, if_neg (he ▸ Ne.symm hk : ¬e.1 = k)]
    · simp only [List.map_cons, if_neg he, cacheLookup]
      by_cases hek : e.1 = k
      · have hk : ¬k = id := fun h => he (hek.trans h)
        simp [cacheLookup, hek, hk]
      · rw [if_neg hek, ih]
        by_cases hk : k = id <;> simp [hk, he, hek, cacheLookup]

/-- `cacheInsert` updates the mapping at the inserted identifier and leaves
every other identifier's binding unchanged. -/
theorem cacheLookup_insert (c : Cache) (id : ContentIdentifier) (ref : Ref)
    (k : ContentIdentifier) :
    cacheLookup (cacheInsert c id ref) k =
      if k = id then some ref else cacheLookup c k := by
  cases hl : cacheLookup c id with
  | none =>
    simp only [cacheInsert, hl]
    by_cases hk : k = id
    · subst hk; simp [cacheLookup]
    · simp [cacheLookup, hk, Ne.symm hk]
  | some r =>
    simp only [cacheInsert, hl]
    by_cases hr : r = ref
    · subst hr
      simp only [if_pos rfl]
      by_cases hk : k = id
      · subst hk; simp [hl]
      · simp [hk]
    · rw [if_neg hr, cacheLookup_overwrite]
      by_cases hk : k = id
      · subst hk; simp [hl]
      · simp [hk]

/-- Under the tracking invariant, the Transfer step answers with the remote
service's deterministic outcome for the initial state, and the invariant is
preserved. -/
theorem transferStep_spec (opts : UploadOptions) (st0 st : EngineState)
    (id : ContentIdentifier) (h : Tracks opts st0 st) :
    (transferStep st id).1 = gOutcome st0 id ∧
      Tracks opts st0 (transferStep st id).2 := by
  obtain ⟨hf, hr, hobj, hcache⟩ := h
  rcases hobj id with hid | ⟨h0, hrj0, hid⟩
  · cases h0 : st0.server.objects id with
    | some r =>
      rw [h0] at hid
      refine ⟨?_, ?_⟩
      · simp [transferStep, hid, gOutcome, h0]
      · simp only [transferStep, hid]
        exact ⟨hf, hr, hobj, hcache⟩
    | none =>
      rw [h0] at hid
      cases hrj0 : st0.server.reject id with
      | some reason =>
        have hrj' : st.server.reject id = some reason := by rw [hr, hrj0]
        refine ⟨?_, ?_⟩
        · simp [transferStep, hid, hrj', gOutcome, h0, hrj0]
        · simp only [transferStep, hid, hrj']
          exact ⟨hf, hr, hobj, hcache⟩
      | none =>
        have hrj' : st.server.reject id = none := by rw [hr, hrj0]
        refine ⟨?_, ?_⟩
        · simp [transferStep, hid, hrj', gOutcome, h0, hrj0, hf]
        · simp only [transferStep, hid, hrj']
          refine ⟨hf, hr, ?_, hcache⟩
          intro k
          by_cases hk : k = id
          · subst hk
            exact Or.inr ⟨h0, hrj0, by simp [hf]⟩
          · simp only [if_neg hk]
            exact hobj k
  · refine ⟨?_, ?_⟩
    · simp [transferStep, hid, gOutcome, h0, hrj0]
    · simp only [transferStep, hid]
      exact ⟨hf, hr, hobj, hcache⟩

/-- Under the tracking invariant, a task's resolved reference is the
canonical one determined by the initial shared state, and the invariant is
preserved by the whole Uploader state machine including cache backfills. -/
theorem uploadOne_spec (opts : UploadOptions) (st0 st : EngineState) (t : UploadTask)
    (h : Tracks opts st0 st) :
    resultRef (uploadOne st opts t).1.1 = canonicalRef st0 opts t ∧
      Tracks opts st0 (uploadOne st opts t).2 := by
  cases hforce : opts.force with
  | true =>
    have ht := transferStep_spec opts st0 st (taskId t) h
    rcases htr : transferStep st (taskId t) with ⟨res, st1⟩
    rw [htr] at ht
    obtain ⟨hres, htracks⟩ := ht
    obtain ⟨hf1, hr1, hobj1, _⟩ := htracks
    cases res with
    | ok r =>
      refine ⟨?_, ?_⟩
      · simp [uploadOne, hforce, htr, resultRef, canonicalRef, ← hres]
      · simp only [uploadOne, hforce, if_true, htr]
        refine ⟨hf1, hr1, hobj1, ?_⟩
        intro hforce'
        rw [hforce] at hforce'
        exact absurd hforce' (by simp)
    | error e =>
      refine ⟨?_, ?_⟩
      · simp [uploadOne, hforce, htr, resultRef, canonicalRef, ← hres]
      · simp only [uploadOne, hforce, if_true, htr]
        refine ⟨hf1, hr1, hobj1, ?_⟩
        intro hforce'
        rw [hforce] at hforce'
        exact absurd hforce' (by simp)
  | false =>
    obtain ⟨hf, hr, hobj, hcache⟩ := h
    cases hcl : cacheLookup st.cache (taskId t) with
    | some r =>
      rcases hcache hforce (taskId t) with heq | ⟨h0, r', hg, hsome⟩
      · have hcl0 : cacheLookup st0.cache (taskId t) = some r := by rw [← heq, hcl]
        refine ⟨?_, ?_⟩
        · simp [uploadOne, hforce, hcl, resultRef, canonicalRef, hcl0]
        · simp only [uploadOne, hforce, hcl]
          exact ⟨hf, hr, hobj, hcache⟩
      · have hr' : r' = r := Option.some.inj (hsome.symm.trans hcl)
        subst hr'
        refine ⟨?_, ?_⟩
        · simp [uploadOne, hforce, hcl, resultRef, canonicalRef, h0, hg]
        · simp only [uploadOne, hforce, hcl]
          exact ⟨hf, hr, hobj, hcache⟩
    | none =>
      have h0 : cacheLookup st0.cache (taskId t) = none := by
        rcases hcache hforce (taskId t) with heq | ⟨h0, r', hg, hsome⟩
        · rw [← heq, hcl]
        · exact h0
      rcases hobj (taskId t) with hid | ⟨ho0, hrj0, hid⟩
      · cases ho : st0.server.objects (taskId t) with
        | some r =>
          rw [ho] at hid
          refine ⟨?_, ?_⟩
          · simp [uploadOne, hforce, hcl, hid, resultRef, canonicalRef, h0, gOutcome, ho]
          · simp only [uploadOne, hforce, hcl, hid]
            refine ⟨hf, hr, hobj, ?_⟩
            intro _ k
            simp only [Bool.false_eq_true, if_false, cacheLookup_insert]
            by_cases hk : k = taskId t
            · subst hk
              simp only [if_pos rfl]
              exact Or.inr ⟨h0, r, by simp [gOutcome, ho], rfl⟩
            · simp only [if_neg hk]
              exact hcache hforce k
        | none =>
          rw [ho] at hid
          have ht := transferStep_spec opts st0 st (taskId t) ⟨hf, hr, hobj, hcache⟩
          rcases htr : transferStep st (taskId t) with ⟨res, st1⟩
          rw [htr] at ht
          obtain ⟨hres, htracks⟩ := ht
          obtain ⟨hf1, hr1, hobj1, hcache1⟩ := htracks
          cases res with
          | ok r =>
            refine ⟨?_, ?_⟩
            · simp [uploadOne, hforce, hcl, hid, htr, resultRef, canonicalRef, h0, ← hres]
            · simp only [uploadOne, hforce, hcl, hid, htr]
              refine ⟨hf1, hr1, hobj1, ?_⟩
              intro _ k
              simp only [Bool.false_eq_true, if_false, cacheLookup_insert]
              by_cases hk : k = taskId t
              · subst hk
                simp only [if_pos rfl]
                exact Or.inr ⟨h0, r, hres.symm, rfl⟩
              · simp only [if_neg hk]
                exact hcache1 hforce k
          | error e =>
            refine ⟨?_, ?_⟩
            · simp [uploadOne, hforce, hcl, hid, htr, resultRef, canonicalRef, h0, ← hres]
            · simp only [uploadOne, hforce, hcl, hid, htr]
              exact ⟨hf1, hr1, hobj1, hcache1⟩
      · refine ⟨?_, ?_⟩
        · simp [uploadOne, hforce, hcl, hid, resultRef, canonicalRef, h0, gOutcome, ho0, hrj0]
        · simp only [uploadOne, hforce, hcl, hid]
          refine ⟨hf, hr, hobj, ?_⟩
          intro _ k
          simp only [Bool.false_eq_true, if_false, cacheLookup_insert]
          by_cases hk : k = taskId t
          · subst hk
            simp only [if_pos rfl]
            exact Or.inr ⟨h0, st0.server.fresh (taskId t), by simp [gOutcome, ho0, hrj0], rfl⟩
          · simp only [if_neg hk]
            exact hcache hforce k

/-- A whole batch run resolves every task to its canonical reference, in
batch order, and preserves the tracking invariant. -/
theorem runSchedule_spec (opts : UploadOptions) (st0 st : EngineState)
    (l : List UploadTask) (h : Tracks opts st0 st) :
    refMap (runSchedule st opts l).1 =
      l.map (fun t => (t.file.path, canonicalRef st0 opts t)) ∧
      Tracks opts st0 (runSchedule st opts l).2 := by
  induction l generalizing st with
  | nil => exact ⟨rfl, h⟩
  | cons t ts ih =>
    obtain ⟨h1, h2⟩ := uploadOne_spec opts st0 st t h
    obtain ⟨ih1, ih2⟩ := ih (uploadOne st opts t).2 h2
    refine ⟨?_, ih2⟩
    calc refMap (runSchedule st opts (t :: ts)).1
        = (t.file.path, resultRef (uploadOne st opts t).1.1) ::
            refMap (runSchedule (uploadOne st opts t).2 opts ts).1 := rfl
      _ = (t.file.path, canonicalRef st0 opts t) ::
            ts.map (fun u => (u.file.path, canonicalRef st0 opts u)) := by rw [h1, ih1]
      _ = (t :: ts).map (fun u => (u.file.path, canonicalRef st0 opts u)) := rfl

/-- C1: with `force=false`, a task whose identifier is already in the
Identity Cache resolves to the cached RemoteObjectReference with zero
network transfer calls and no state change. -/
theorem upload_cache_hit_uses_cached_ref (st : EngineState) (opts : UploadOptions)
    (t : UploadTask) (r : Ref) (hforce : opts.force = false)
    (hhit : cacheLookup st.cache (taskId t) = some r) :
    uploadOne st opts t = ((.success r true, 0), st) := by
  simp [uploadOne, hforce, hhit]

/-- C1 witness: on a state whose cache holds `wFile`'s identifier, the
unforced upload returns the cached reference with zero transfers. -/
theorem upload_cache_hit_uses_cached_ref_witness :
    uploadOne wStateHit wOpts wTask = ((.success "CACHED-KEY" true, 0), wStateHit) :=
  upload_cache_hit_uses_cached_ref wStateHit wOpts wTask "CACHED-KEY" rfl (by decide)

/-- C5: with `force=true` the Transfer step is always performed — exactly
one network transfer call — and the resolved reference is the remote
service's transfer outcome, independent of the Identity Cache, so local
deduplication is bypassed unconditionally. -/
theorem force_upload_performs_transfer (st : EngineState) (opts : UploadOptions)
    (t : UploadTask) (hforce : opts.force = true) :
    (uploadOne st opts t).1.2 = 1 ∧
      resultRef (uploadOne st opts t).1.1 = gOutcome st (taskId t) := by
  have hs := (uploadOne_spec opts st st t (tracks_refl opts st)).1
  rcases htr : transferStep st (taskId t) with ⟨res, st1⟩
  refine ⟨?_, ?_⟩
  · cases res <;> simp [uploadOne, hforce, htr]
  · rw [hs]
    simp [canonicalRef, hforce]

/-- C5 witness: even on a state with a cache hit for `wFile`'s identifier,
a forced upload performs one transfer call. -/
theorem force_upload_performs_transfer_witness :
    (uploadOne wStateHit wOptsForce wTask).1.2 = 1 ∧
      resultRef (uploadOne wStateHit wOptsForce wTask).1.1 =
        gOutcome wStateHit (taskId wTask) :=
  force_upload_performs_transfer wStateHit wOptsForce wTask rfl

/-- C7: `identify` depends only on the file's byte content: files with
identical bytes get the same ContentIdentifier regardless of name, path,
mtime or permissions. -/
theorem identify_depends_only_on_content (f1 f2 : LocalFile)
    (h : f1.content = f2.content) : identify f1 = identify f2 := by
  unfold identify
  rw [h]

/-- C7 witness: `wFile` and `wFileCopy` differ in name, path, mtime and
permissions but share their bytes, and get the same identifier. -/
theorem identify_depends_only_on_content_witness :
    wFile.content = wFileCopy.content ∧ identify wFile = identify wFileCopy :=
  ⟨rfl, identify_depends_only_on_content wFile wFileCopy rfl⟩

/-- C3: two executions of the same batch from the same initial state in two
completion orders — e.g. the order a pool of size 1 produces and the order
a pool of size N produces (spec section 5: pool size only changes which
interleaving of completions arises) — yield the same aggregate
file-to-reference mapping, as multisets of (file, reference) pairs. -/
theorem scheduler_pool_size_equiv (st : EngineState) (opts : UploadOptions)
    (tasks ord1 ord2 : List UploadTask)
    (h1 : List.Perm ord1 tasks) (h2 : List.Perm ord2 tasks) :
    List.Perm (refMap (runSchedule st opts ord1).1)
      (refMap (runSchedule st opts ord2).1) := by
  rw [(runSchedule_spec opts st st ord1 (tracks_refl opts st)).1,
    (runSchedule_spec opts st st ord2 (tracks_refl opts st)).1]
  exact List.Perm.map _ (h1.trans h2.symm)

/-- C3 witness: the two completion orders of the two-task batch give the
same aggregate mapping. -/
theorem scheduler_pool_size_equiv_witness :
    List.Perm (refMap (runSchedule wStateEmpty wOpts [wTask, wTaskB]).1)
      (refMap (runSchedule wStateEmpty wOpts [wTaskB, wTask]).1) :=
  scheduler_pool_size_equiv wStateEmpty wOpts [wTask, wTaskB]
    [wTask, wTaskB] [wTaskB, wTask] (by decide) (by decide)

/-- C6: the Upload Scheduler returns a complete outcome set: one result per
input task, keyed by originating file, and each task's outcome (success or
recorded failure) is exactly what that task yields when run on its own —
so one task's failure never aborts or alters another task's result. -/
theorem scheduler_failure_isolation (st : EngineState) (opts : UploadOptions)
    (tasks : List UploadTask) :
    (runSchedule st opts tasks).1.map Prod.fst = tasks.map (fun t => t.file.path) ∧
      refMap (runSchedule st opts tasks).1 =
        tasks.map (fun t => (t.file.path, resultRef (uploadOne st opts t).1.1)) := by
  have e := (runSchedule_spec opts st st tasks (tracks_refl opts st)).1
  have hfun : (fun t : UploadTask => (t.file.path, canonicalRef st opts t)) =
      (fun t : UploadTask => (t.file.path, resultRef (uploadOne st opts t).1.1)) :=
    funext fun t => by rw [(uploadOne_spec opts st st t (tracks_refl opts st)).1]
  refine ⟨?_, by rw [e, hfun]⟩
  have hp : (runSchedule st opts tasks).1.map Prod.fst =
      (refMap (runSchedule st opts tasks).1).map Prod.fst := by
    simp [refMap]
  rw [hp, e]
  simp

/-- An identifier absent from the cache has no entry in it. -/
theorem cacheLookup_none_not_mem (c : Cache) (id : ContentIdentifier)
    (h : cacheLookup c id = none) : ∀ r, (id, r) ∉ c := by
  induction c with
  | nil => intro r hr; exact (List.not_mem_nil _) hr
  | cons e es ih =>
    intro r hr
    simp only [cacheLookup] at h
    by_cases he : e.1 = id
    · rw [if_pos he] at h; cases h
    · rw [if_neg he] at h
      rcases List.mem_cons.mp hr with heq | hmem
      · exact he (by rw [← heq])
      · exact ih h r hmem

/-- `cacheInsert` keeps the cache mapping each identifier to at most one
reference. -/
theorem atMostOne_insert (c : Cache) (id : ContentIdentifier) (ref : Ref)
    (h : AtMostOneRef c) : AtMostOneRef (cacheInsert c id ref) := by
  intro k r1 r2 h1 h2
  cases hl : cacheLookup c id with
  | none =>
    simp only [cacheInsert, hl] at h1 h2
    rcases List.mem_cons.mp h1 with e1 | m1 <;> rcases List.mem_cons.mp h2 with e2 | m2
    · rw [Prod.mk.injEq] at e1 e2
      exact e1.2.trans e2.2.symm
    · rw [Prod.mk.injEq] at e1
      exact absurd (e1.1 ▸ m2) (cacheLookup_none_not_mem c id hl r2)
    · rw [Prod.mk.injEq] at e2
      exact absurd (e2.1 ▸ m1) (cacheLookup_none_not_mem c id hl r1)
    · exact h k r1 r2 m1 m2
  | some r0 =>
    by_cases hr : r0 = ref
    · simp only [cacheInsert, hl, if_pos hr] at h1 h2
      exact h k r1 r2 h1 h2
    · simp only [cacheInsert, hl, if_neg hr] at h1 h2
      rcases List.mem_map.mp h1 with ⟨e1, me1, fe1⟩
      rcases List.mem_map.mp h2 with ⟨e2, me2, fe2⟩
      have key : ∀ (e : ContentIdentifier × Ref) (rr : Ref), e ∈ c →
          (if e.1 = id then (id, ref) else e) = (k, rr) →
          (k = id ∧ rr = ref) ∨ ((k, rr) ∈ c ∧ ¬k = id) := by
        intro e rr me fe
        by_cases h' : e.1 = id
        · rw [if_pos h', Prod.mk.injEq] at fe
          exact Or.inl ⟨fe.1.symm, fe.2.symm⟩
        · rw [if_neg h'] at fe
          refine Or.inr ⟨fe ▸ me, ?_⟩
          intro hk
          apply h'
          rw [fe]
          exact hk
      rcases key e1 r1 me1 fe1 with ⟨hk1, hr1⟩ | ⟨m1, hk1⟩ <;>
        rcases key e2 r2 me2 fe2 with ⟨hk2, hr2⟩ | ⟨m2, hk2⟩
      · exact hr1.trans hr2.symm
      · exact absurd hk1 hk2
      · exact absurd hk2 hk1
      · exact h k r1 r2 m1 m2

/-- `cacheRefresh` keeps the cache mapping each identifier to at most one
reference. -/
theorem atMostOne_refresh (entries : List (ContentIdentifier × Ref)) :
    ∀ c : Cache, AtMostOneRef c → AtMostOneRef (cacheRefresh c entries) := by
  induction entries with
  | nil => intro c h; exact h
  | cons e es ih =>
    intro c h
    exact ih (cacheInsert c e.1 e.2) (atMostOne_insert c e.1 e.2 h)

/-- Every single cache operation preserves the at-most-one-reference
property. -/
theorem atMostOne_applyOp (c : Cache) (op : CacheOp) (h : AtMostOneRef c) :
    AtMostOneRef (applyOp c op) := by
  cases op with
  | lookup id => exact h
  | insert id ref => exact atMostOne_insert c id ref h
  | refresh entries => exact atMostOne_refresh entries c h

/-- Every sequence of cache operations preserves the at-most-one-reference
property. -/
theorem atMostOne_applyOps (ops : List CacheOp) :
    ∀ c : Cache, AtMostOneRef c → AtMostOneRef (applyOps c ops) := by
  induction ops with
  | nil => intro c h; exact h
  | cons op ops ih => intro c h; exact ih (applyOp c op) (atMostOne_applyOp c op h)

/-- C4: after any sequence of lookup/insert/refresh operations the Identity
Cache still maps each ContentIdentifier to at most one
RemoteObjectReference; and a remote-confirmed existing object takes
precedence over local uploads racing on the same content: whatever
completion order the workers produce, a task whose content the remote
already stores resolves to the remote's reference, never to a freshly
created one. -/
theorem cache_invariant_and_remote_precedence :
    (∀ (ops : List CacheOp) (c : Cache), AtMostOneRef c → AtMostOneRef (applyOps c ops)) ∧
    (∀ (st : EngineState) (opts : UploadOptions) (tasks ord : List UploadTask)
      (t : UploadTask) (r : Ref), List.Perm ord tasks → t ∈ tasks →
      opts.force = false → cacheLookup st.cache (taskId t) = none →
      st.server.objects (taskId t) = some r →
      (t.file.path, Except.ok r) ∈ refMap (runSchedule st opts ord).1) := by
  constructor
  · intro ops c h
    exact atMostOne_applyOps ops c h
  · intro st opts tasks ord t r hperm hmem hforce hmiss hobj
    rw [(runSchedule_spec opts st st ord (tracks_refl opts st)).1]
    have hord : t ∈ ord := hperm.mem_iff.mpr hmem
    have hcan : canonicalRef st opts t = Except.ok r := by
      simp [canonicalRef, hforce, hmiss, gOutcome, hobj]
    exact List.mem_map.mpr ⟨t, hord, by rw [hcan]⟩

/-- C4 witness: a double insert plus refresh keeps the cache single-valued,
and with the remote already storing `wFile`'s content the scheduler
resolves `wTask` to the remote's reference. -/
theorem cache_invariant_and_remote_precedence_witness :
    AtMostOneRef (applyOps [] wOps) ∧
      ("media/image.png", Except.ok "REMOTE-KEY") ∈
        refMap (runSchedule wStateRemote wOpts [wTask]).1 :=
  ⟨cache_invariant_and_remote_precedence.1 wOps []
      (fun _ _ _ h1 _ => absurd h1 (List.not_mem_nil _)),
    cache_invariant_and_remote_precedence.2 wStateRemote wOpts [wTask] [wTask] wTask
      "REMOTE-KEY" (List.Perm.refl _) (by decide) rfl rfl rfl⟩

/-- C9: `UploadRejected`, `ProtobufDecodeError` and `ProtobufEncodeError`
are pairwise-distinct types, each derives from the common base
`CustomException` (itself deriving from `Exception`), so a handler for
`CustomException` catches all three, while no one of the three is caught by
a handler for another: they are distinguishable by exception type alone. -/
theorem exception_hierarchy_c9 :
    (ExcType.UploadRejected ≠ ExcType.ProtobufDecodeError ∧
      ExcType.UploadRejected ≠ ExcType.ProtobufEncodeError ∧
      ExcType.ProtobufDecodeError ≠ ExcType.ProtobufEncodeError) ∧
    (derives .UploadRejected .CustomException = true ∧
      derives .ProtobufDecodeError .CustomException = true ∧
      derives .ProtobufEncodeError .CustomException = true ∧
      derives .CustomException .Exception = true) ∧
    (caughtBy .UploadRejected .CustomException = true ∧
      caughtBy .ProtobufDecodeError .CustomException = true ∧
      caughtBy .ProtobufEncodeError .CustomException = true) ∧
    (caughtBy .UploadRejected .ProtobufDecodeError = false ∧
      caughtBy .UploadRejected .ProtobufEncodeError = false ∧
      caughtBy .ProtobufDecodeError .UploadRejected = false ∧
      caughtBy .ProtobufDecodeError .ProtobufEncodeError = false ∧
      caughtBy .ProtobufEncodeError .UploadRejected = false ∧
      caughtBy .ProtobufEncodeError .ProtobufDecodeError = false) := by
  decide

/-- Every well-formed response byte sequence starts with the protocol
version tag. -/
theorem encodeResp_head (r : MediaResponse) (bs : List Nat)
    (h : encodeResp r = some bs) : bs.head? = some protocolVersion := by
  unfold encodeResp at h
  split at h
  · cases h
    rfl
  · cases h

/-- The decoder accepts only exact well-formed encodings: a successfully
decoded response re-encodes to precisely the input bytes. -/
theorem decodeResp_complete (bs : List Nat) (r : MediaResponse)
    (h : decodeResp bs = .ok r) : encodeResp r = some bs := by
  cases bs with
  | nil => simp [decodeResp] at h
  | cons v rest0 =>
    cases rest0 with
    | nil => simp [decodeResp] at h
    | cons len rest =>
      simp only [decodeResp] at h
      split at h
      · rename_i hg
        cases h
        obtain ⟨h1, h2, h3, h4⟩ := hg
        unfold encodeResp
        rw [if_pos ⟨by rw [h2]; exact h3, h4⟩, h1, h2]
      · cases h

/-- Decoding either fails carrying exactly the raw input bytes, or
succeeds. -/
theorem decodeResp_shape (bs : List Nat) :
    decodeResp bs = .error ⟨bs⟩ ∨ ∃ r, decodeResp bs = .ok r := by
  cases bs with
  | nil => exact Or.inl rfl
  | cons v rest0 =>
    cases rest0 with
    | nil => exact Or.inl rfl
    | cons len rest =>
      simp only [decodeResp]
      split
      · exact Or.inr ⟨⟨rest⟩, rfl⟩
      · exact Or.inl rfl

/-- C2: every byte sequence that is not the encoding of any response —
malformed, truncated, or version-mismatched — decodes to `DecodeFailure`
carrying the raw bytes; and whenever decoding does return a response it is
fully populated, re-encoding to exactly the input, so a partially populated
response is never returned. -/
theorem decode_malformed_always_decode_failure (bs : List Nat) :
    ((∀ r : MediaResponse, encodeResp r ≠ some bs) → decodeResp bs = .error ⟨bs⟩) ∧
      (∀ r : MediaResponse, decodeResp bs = .ok r → encodeResp r = some bs) := by
  refine ⟨?_, fun r h => decodeResp_complete bs r h⟩
  intro hmal
  rcases decodeResp_shape bs with h | ⟨r, h⟩
  · exact h
  · exact absurd (decodeResp_complete bs r h) (hmal r)

/-- C2 witness: the version-mismatched sequence `[2, 0]` decodes to
`DecodeFailure` carrying it, and the well-formed sequence `[1, 2, 5, 6]`
decodes to a response that re-encodes to it. -/
theorem decode_malformed_always_decode_failure_witness :
    decodeResp [2, 0] = .error ⟨[2, 0]⟩ ∧ encodeResp ⟨[5, 6]⟩ = some [1, 2, 5, 6] :=
  ⟨(decode_malformed_always_decode_failure [2, 0]).1
      (fun r h => by
        have hh := encodeResp_head r [2, 0] h
        simp [protocolVersion] at hh),
    (decode_malformed_always_decode_failure [1, 2, 5, 6]).2 ⟨[5, 6]⟩ (by rfl)⟩

/-- C8: with the case-insensitive regular-expression filter "copy", every
file whose name the expression matches is excluded from the candidate set
and every file whose name it does not match is included. -/
theorem filter_copy_excludes_matching (names : List String) (n : String)
    (hn : n ∈ names) :
    (filterHit ⟨"copy", true, true⟩ n = true →
      n ∉ selectCandidates (some ⟨"copy", true, true⟩) names) ∧
      (filterHit ⟨"copy", true, true⟩ n = false →
        n ∈ selectCandidates (some ⟨"copy", true, true⟩) names) := by
  constructor
  · intro hhit hmem
    rcases List.mem_filter.mp hmem with ⟨-, hp⟩
    have hp' : (!filterHit ⟨"copy", true, true⟩ n) = true := hp
    rw [hhit] at hp'
    cases hp'
  · intro hmiss
    refine List.mem_filter.mpr ⟨hn, ?_⟩
    show (!filterHit ⟨"copy", true, true⟩ n) = true
    rw [hmiss]
    rfl

/-- C8 witness: in a directory holding `Copy_of_img.png` and `img.png`, the
filter excludes the former and includes the latter. -/
theorem filter_copy_excludes_matching_witness :
    "Copy_of_img.png" ∉
        selectCandidates (some ⟨"copy", true, true⟩) ["Copy_of_img.png", "img.png"] ∧
      "img.png" ∈
        selectCandidates (some ⟨"copy", true, true⟩) ["Copy_of_img.png", "img.png"] :=
  ⟨(filter_copy_excludes_matching ["Copy_of_img.png", "img.png"] "Copy_of_img.png"
      (by decide)).1 (by decide),
    (filter_copy_excludes_matching ["Copy_of_img.png", "img.png"] "img.png"
      (by decide)).2 (by decide)⟩

/-- Hexadecimal digit characters decode back to their value. -/
theorem hexChrVal_hexDigitChr : ∀ x, x < 16 → hexChrVal (hexDigitChr x) = some x := by
  decide

/-- Hexadecimal digit characters are recognized as such. -/
theorem isHexDigitChr_hexDigitChr : ∀ x, x < 16 → isHexDigitChr (hexDigitChr x) = true := by
  decide

/-- Hexadecimal decoding inverts hexadecimal encoding on byte sequences. -/
theorem hexDecode_hexEncode (l : List Nat) (h : ∀ b ∈ l, b < 256) :
    hexDecode (hexEncode l) = some l := by
  induction l with
  | nil => rfl
  | cons b bs ih =>
    have hb : b < 256 := h b (List.mem_cons_self b bs)
    have h1 : b / 16 < 16 := by omega
    have h2 : b % 16 < 16 := by omega
    simp only [hexEncode, hexDecode, hexChrVal_hexDigitChr _ h1, hexChrVal_hexDigitChr _ h2,
      ih (fun x hx => h x (List.mem_cons_of_mem b hx))]
    have hre : b / 16 * 16 + b % 16 = b := by omega
    rw [hre]

/-- Hexadecimal encoding yields two characters per byte. -/
theorem hexEncode_length (l : List Nat) : (hexEncode l).length = 2 * l.length := by
  induction l with
  | nil => rfl
  | cons b bs ih =>
    simp only [hexEncode, List.length_cons, ih]
    omega

/-- Every character of a hexadecimal encoding is a hexadecimal digit. -/
theorem hexEncode_all_hex (l : List Nat) (h : ∀ b ∈ l, b < 256) :
    (hexEncode l).all isHexDigitChr = true := by
  induction l with
  | nil => rfl
  | cons b bs ih =>
    have hb : b < 256 := h b (List.mem_cons_self b bs)
    simp only [hexEncode, List.all_cons, isHexDigitChr_hexDigitChr (b / 16) (by omega),
      isHexDigitChr_hexDigitChr (b % 16) (by omega),
      ih (fun x hx => h x (List.mem_cons_of_mem b hx)), Bool.and_self]

/-- Base64 alphabet characters decode back to their sextet value. -/
theorem b64val_b64chr : ∀ x, x < 64 → b64val (b64chr x) = some x := by
  decide

/-- No base64 alphabet character is the padding character. -/
theorem b64chr_ne_pad : ∀ x, x < 64 → ¬b64chr x = '=' := by
  decide

/-- Base64 decoding inverts base64 encoding on byte sequences. -/
theorem b64Decode_b64Encode (l : List Nat) (h : ∀ b ∈ l, b < 256) :
    b64Decode (b64Encode l) = some l := by
  induction l using b64Encode.induct with
  | case1 b0 b1 b2 rest ih =>
    have hb0 : b0 < 256 := h b0 (by simp)
    have hb1 : b1 < 256 := h b1 (by simp)
    have hb2 : b2 < 256 := h b2 (by simp)
    have ih' := ih (fun x hx => h x (by simp [hx]))
    simp [b64Encode, b64Decode, b64val_b64chr (b0 / 4) (by omega),
      b64val_b64chr ((b0 % 4) * 16 + b1 / 16) (by omega),
      b64val_b64chr ((b1 % 16) * 4 + b2 / 64) (by omega),
      b64val_b64chr (b2 % 64) (by omega),
      if_neg (b64chr_ne_pad ((b1 % 16) * 4 + b2 / 64) (by omega)),
      if_neg (b64chr_ne_pad (b2 % 64) (by omega)), ih']
    omega
  | case2 b0 b1 =>
    have hb0 : b0 < 256 := h b0 (by simp)
    have hb1 : b1 < 256 := h b1 (by simp)
    simp [b64Encode, b64Decode, b64val_b64chr (b0 / 4) (by omega),
      b64val_b64chr ((b0 % 4) * 16 + b1 / 16) (by omega),
      b64val_b64chr ((b1 % 16) * 4) (by omega),
      if_neg (b64chr_ne_pad ((b1 % 16) * 4) (by omega))]
    omega
  | case3 b0 =>
    have hb0 : b0 < 256 := h b0 (by simp)
    simp [b64Encode, b64Decode, b64val_b64chr (b0 / 4) (by omega),
      b64val_b64chr ((b0 % 4) * 16) (by omega)]
    omega
  | case4 => rfl

/-- The length of a base64 encoding: four characters per started triple of
bytes. -/
theorem b64Encode_length (l : List Nat) :
    (b64Encode l).length = 4 * ((l.length + 2) / 3) := by
  induction l using b64Encode.induct with
  | case1 b0 b1 b2 rest ih =>
    simp only [b64Encode, List.length_cons, ih]
    omega
  | case2 b0 b1 => simp [b64Encode]
  | case3 b0 => simp [b64Encode]
  | case4 => rfl

/-- A 20-byte digest in hexadecimal is normalized back to its bytes. -/
theorem parseDigest_hexEncode (d : List Nat) (hlen : d.length = 20)
    (h : ∀ b ∈ d, b < 256) : parseDigest ⟨hexEncode d⟩ = some d := by
  unfold parseDigest
  rw [if_pos ⟨by rw [hexEncode_length, hlen], hexEncode_all_hex d h⟩]
  exact hexDecode_hexEncode d h

/-- A 20-byte digest in base64 is normalized back to its bytes. -/
theorem parseDigest_b64Encode (d : List Nat) (hlen : d.length = 20)
    (h : ∀ b ∈ d, b < 256) : parseDigest ⟨b64Encode d⟩ = some d := by
  unfold parseDigest
  rw [if_neg ?_]
  · exact b64Decode_b64Encode d h
  · rintro ⟨hl, -⟩
    rw [b64Encode_length, hlen] at hl
    simp at hl

/-- C10: `get_media_key_by_hash` accepts the hexadecimal and the base64
encoding of the same SHA-1 digest and returns the same result for both:
the stored media key on a hit, and nothing on a miss, in both cases the
result of one store lookup by the digest itself. -/
theorem hash_lookup_encoding_agnostic (c : Cache) (d : List Nat)
    (hlen : d.length = 20) (h : ∀ b ∈ d, b < 256) :
    get_media_key_by_hash c ⟨hexEncode d⟩ = cacheLookup c d ∧
      get_media_key_by_hash c ⟨b64Encode d⟩ = cacheLookup c d := by
  unfold get_media_key_by_hash
  rw [parseDigest_hexEncode d hlen h, parseDigest_b64Encode d hlen h]
  exact ⟨rfl, rfl⟩

/-- C10 witness: both encodings of the test image's SHA-1 digest resolve to
the same lookup result on a store holding that digest. -/
theorem hash_lookup_encoding_agnostic_witness :
    get_media_key_by_hash [(wDigest, "MEDIA-KEY")] ⟨hexEncode wDigest⟩ =
        cacheLookup [(wDigest, "MEDIA-KEY")] wDigest ∧
      get_media_key_by_hash [(wDigest, "MEDIA-KEY")] ⟨b64Encode wDigest⟩ =
        cacheLookup [(wDigest, "MEDIA-KEY")] wDigest :=
  hash_lookup_encoding_agnostic [(wDigest, "MEDIA-KEY")] wDigest (by decide) (by decide)

end Gotohp
